import Mathlib

set_option maxRecDepth 8000

/-
Shallow embedding of the change-detection core of src/notifier.py
(bili-telegram-notifier).

The program is a single scan: after a Telegram self-check (lines 156-162) it
loads the persisted state (a map from uid to a list of already-notified ids),
and for each configured uid it

  * concatenates the results of four fetchers in fixed priority order,
    tagging each raw (id, title, link) triple with the source tag
    (lines 172-184);
  * deduplicates the concatenation by id, keeping the first occurrence
    (lines 186-193);
  * filters out the items whose id is in the watermark set
    (lines 195-196);
  * attempts to send the newest three of the remaining items, oldest first;
    a successful send adds the id to the watermark set, a failed send is
    logged and skipped (lines 200-209);
  * stores the last 150 elements of the enumeration of the watermark set as
    the uid's new entry (line 211);

and finally writes the whole state back (lines 213-214).

Network sends and fetch results are modelled as oracle parameters.  A Python
set is represented by a duplicate-free list; the unspecified enumeration
order of Python's list(set) is modelled by an arbitrary function that is only
required to enumerate each element exactly once (LinOK below).
-/

/-- An item as it appears in the merge loop of main: the source-tagged id, a
title, an optional link and the source tag attached at lines 172-184. -/
structure Item where
  id : String
  title : String
  link : Option String
  tag : String
deriving DecidableEq

/-- A raw triple (id, title, link) as returned by one fetcher. -/
abbrev RawItem := String × String × Option String

/-- The merge loop of main (lines 172-184): the item lists produced by the
fetchers are concatenated in the fixed priority order of the given list
(videos, articles, polymer dynamics, rss in the source), each item tagged
with the tag of its source. -/
def mergeAll (sources : List (List RawItem × String)) : List Item :=
  sources.foldl (fun acc st => acc ++ st.1.map (fun r => ⟨r.1, r.2.1, r.2.2, st.2⟩)) []

/-- Adding one element to the list representation of a Python set. -/
def insertSet (x : String) (l : List String) : List String :=
  if x ∈ l then l else l ++ [x]

/-- Python set(l) on a list of strings: the distinct elements of l.  Only
membership of the result is ever relied upon; the enumeration order of a
Python set is modelled separately, see LinOK. -/
def pySet (l : List String) : List String :=
  l.foldl (fun acc x => insertSet x acc) []

/-- The dedup pass of main (lines 186-193): keep the first occurrence of each
id, the accumulator being the ids seen so far. -/
def dedupItems : List Item → List String → List Item
  | [], _ => []
  | it :: rest, ids =>
    if it.id ∈ ids then dedupItems rest ids
    else it :: dedupItems rest (it.id :: ids)

/-- The deduplicated merge result (variable unique in main). -/
def uniqueItems (l : List Item) : List Item := dedupItems l []

/-- Python l[-n:]. -/
def lastN (n : Nat) (l : List α) : List α := l.drop (l.length - n)

/-- Outcome of the dispatch loop: the items whose send was attempted, in
order, the items whose send succeeded, and the final watermark set. -/
structure DispatchResult where
  attempted : List Item
  delivered : List Item
  already : List String
deriving DecidableEq

/-- The dispatch loop of main (lines 200-209): every item of the batch is
attempted; on success its id is added to the watermark set; a failed send is
logged and skipped, and the loop continues.  The send oracle ok tells which
sends succeed. -/
def dispatchLoop (ok : Item → Bool) : List Item → List String → DispatchResult
  | [], a => ⟨[], [], a⟩
  | it :: rest, a =>
    if ok it then
      let r := dispatchLoop ok rest (insertSet it.id a)
      ⟨it :: r.attempted, it :: r.delivered, r.already⟩
    else
      let r := dispatchLoop ok rest a
      ⟨it :: r.attempted, r.delivered, r.already⟩

/-- Line 195: the watermark set loaded for one uid. -/
def already0Of (seenEntry : List String) : List String := pySet seenEntry

/-- Line 196: the deduplicated items whose id is not in the watermark set. -/
def newItemsOf (seenEntry : List String) (merged : List Item) : List Item :=
  (uniqueItems merged).filter (fun it => decide (it.id ∉ already0Of seenEntry))

/-- Line 200: the dispatch batch, the newest three new items oldest first. -/
def batchOf (seenEntry : List String) (merged : List Item) : List Item :=
  ((newItemsOf seenEntry merged).take 3).reverse

/-- Result of processing one uid: attempted sends, delivered sends, and the
new persisted entry for the uid. -/
structure EntityResult where
  attempted : List Item
  delivered : List Item
  entry : List String
deriving DecidableEq

/-- Lines 186-211 of main for one uid: dedup, change detection, dispatch, and
the new entry list(already)[-150:].  The parameter lin models Python's
list(already), whose enumeration order is unspecified. -/
def processEntity (ok : Item → Bool) (lin : List String → List String)
    (seenEntry : List String) (merged : List Item) : EntityResult :=
  let d := dispatchLoop ok (batchOf seenEntry merged) (already0Of seenEntry)
  ⟨d.attempted, d.delivered, lastN 150 (lin d.already)⟩

/-- A valid enumeration of a Python set: applied to a duplicate-free
representation it lists exactly the same elements, each exactly once, in an
arbitrary order. -/
def LinOK (lin : List String → List String) : Prop :=
  ∀ l : List String, l.Nodup → (lin l).Nodup ∧ ∀ x, x ∈ lin l ↔ x ∈ l

/-- Result of one scan: the attempted notifications as (uid, item) pairs in
send order, and the final seen map. -/
structure ScanResult where
  attempted : List (String × Item)
  seen : String → Option (List String)

/-- The per-uid loop of main (lines 169-211): each uid of the configured list
is processed in order against the evolving seen map, and its new entry is
written into the map.  The oracle fetch gives the merged fetch results of a
uid for this scan and ok the send outcomes. -/
def runScan (ok : String → Item → Bool) (lin : List String → List String)
    (fetch : String → List Item) :
    List String → (String → Option (List String)) → ScanResult
  | [], seen => ⟨[], seen⟩
  | uid :: rest, seen =>
    let r := processEntity (ok uid) lin ((seen uid).getD []) (fetch uid)
    let s := runScan ok lin fetch rest (fun u => if u = uid then some r.entry else seen u)
    ⟨r.attempted.map (fun it => (uid, it)) ++ s.attempted, s.seen⟩

/-- Observable outcome of main (lines 156-217). -/
structure MainResult where
  selfCheckAttempts : Nat
  stateLoaded : Bool
  fetchedUids : List String
  attempted : List (String × Item)
  saved : Option (String → Option (List String))

/-- main (lines 156-217): the self-check message is attempted once; if it
fails the run returns at line 162 before the state is loaded, before any uid
is fetched or notified and before anything is saved; otherwise the scan runs
over all uids and the final state is saved once. -/
def mainRun (selfOk : Bool) (ok : String → Item → Bool)
    (lin : List String → List String) (fetch : String → List Item)
    (uids : List String) (loaded : String → Option (List String)) : MainResult :=
  if selfOk then
    let s := runScan ok lin fetch uids loaded
    ⟨1, true, uids, s.attempted, some s.seen⟩
  else
    ⟨1, false, [], [], none⟩

/-- Outcome of retry_get: the returned response or the exception finally
raised (none models the TypeError of raising None when tries is 0), the
number of GET invocations, and the successive sleep durations. -/
structure RetryResult (E R : Type) where
  result : Except (Option E) R
  calls : Nat
  sleeps : List ℚ

/-- The loop of retry_get (lines 54-66), structurally recursive in the number
of remaining attempts: n is tries - i, the oracle outcome gives the result of
the GET of attempt i, and after a failure the loop sleeps
backoff_base * 2 ^ i + jit i where jit i models random.random() * 0.3. -/
def retryGo (outcome : Nat → Except E R) (base : ℚ) (jit : Nat → ℚ) :
    Nat → Nat → Option E → RetryResult E R
  | 0, _, last => ⟨.error last, 0, []⟩
  | n + 1, i, _ =>
    match outcome i with
    | .ok r => ⟨.ok r, 1, []⟩
    | .error e =>
      let rest := retryGo outcome base jit n (i + 1) (some e)
      ⟨rest.result, rest.calls + 1, (base * 2 ^ i + jit i) :: rest.sleeps⟩

/-- retry_get (lines 54-66): run the attempt loop from attempt 0 with no
failure recorded yet. -/
def retry_get (outcome : Nat → Except E R) (tries : Nat) (base : ℚ)
    (jit : Nat → ℚ) : RetryResult E R :=
  retryGo outcome base jit tries 0 none

theorem insertSet_mem {x y : String} {l : List String} :
    y ∈ insertSet x l ↔ y ∈ l ∨ y = x := by
  by_cases h : x ∈ l
  · rw [insertSet, if_pos h]
    constructor
    · exact Or.inl
    · rintro (hy | rfl)
      · exact hy
      · exact h
  · rw [insertSet, if_neg h]
    simp [List.mem_append]

theorem insertSet_nodup {x : String} {l : List String} (h : l.Nodup) :
    (insertSet x l).Nodup := by
  by_cases hx : x ∈ l
  · rw [insertSet, if_pos hx]; exact h
  · rw [insertSet, if_neg hx]
    simp [List.nodup_append, h, hx]

theorem insertSet_length_le (x : String) (l : List String) :
    (insertSet x l).length ≤ l.length + 1 := by
  by_cases hx : x ∈ l
  · rw [insertSet, if_pos hx]; omega
  · rw [insertSet, if_neg hx]; simp

theorem pySet_foldl_mem (l : List String) :
    ∀ (acc : List String) (x : String),
      (x ∈ l.foldl (fun a y => insertSet y a) acc) ↔ x ∈ acc ∨ x ∈ l := by
  induction l with
  | nil => simp
  | cons a rest ih =>
    intro acc x
    simp only [List.foldl_cons]
    rw [ih]
    rw [insertSet_mem]
    simp only [List.mem_cons]
    tauto

theorem pySet_mem {x : String} {l : List String} : x ∈ pySet l ↔ x ∈ l := by
  rw [pySet, pySet_foldl_mem]
  simp

theorem pySet_foldl_nodup (l : List String) :
    ∀ acc : List String, acc.Nodup → (l.foldl (fun a y => insertSet y a) acc).Nodup := by
  induction l with
  | nil => intro acc h; simpa using h
  | cons a rest ih =>
    intro acc h
    simp only [List.foldl_cons]
    exact ih _ (insertSet_nodup h)

theorem pySet_nodup (l : List String) : (pySet l).Nodup :=
  pySet_foldl_nodup l [] List.nodup_nil

theorem lastN_length_le (n : Nat) (l : List α) : (lastN n l).length ≤ n := by
  simp only [lastN, List.length_drop]
  omega

theorem lastN_of_length_le {n : Nat} {l : List α} (h : l.length ≤ n) :
    lastN n l = l := by
  simp [lastN, Nat.sub_eq_zero_of_le h]

theorem lastN_sublist (n : Nat) (l : List α) : List.Sublist (lastN n l) l :=
  List.drop_sublist _ _

theorem lastN_nodup {n : Nat} {l : List String} (h : l.Nodup) : (lastN n l).Nodup :=
  List.Nodup.sublist (lastN_sublist n l) h

theorem dispatchLoop_attempted (ok : Item → Bool) :
    ∀ (b : List Item) (a : List String), (dispatchLoop ok b a).attempted = b := by
  intro b
  induction b with
  | nil => intro a; rfl
  | cons it rest ih =>
    intro a
    by_cases h : ok it = true <;> simp [dispatchLoop, h, ih]

theorem dispatchLoop_delivered (ok : Item → Bool) :
    ∀ (b : List Item) (a : List String),
      (dispatchLoop ok b a).delivered = b.filter ok := by
  intro b
  induction b with
  | nil => intro a; rfl
  | cons it rest ih =>
    intro a
    by_cases h : ok it = true <;> simp [dispatchLoop, h, ih, List.filter_cons]

theorem dispatchLoop_already_mem (ok : Item → Bool) :
    ∀ (b : List Item) (a : List String) (x : String),
      (x ∈ (dispatchLoop ok b a).already) ↔
        x ∈ a ∨ x ∈ (b.filter ok).map Item.id := by
  intro b
  induction b with
  | nil => intro a x; simp [dispatchLoop]
  | cons it rest ih =>
    intro a x
    by_cases h : ok it = true
    · simp only [dispatchLoop, h, if_true]
      rw [ih, insertSet_mem]
      simp [List.filter_cons, h, List.mem_cons]
      tauto
    · simp only [dispatchLoop, h]
      rw [if_neg (by simp [h]), ih]
      simp [List.filter_cons, h]

theorem dispatchLoop_already_nodup (ok : Item → Bool) :
    ∀ (b : List Item) (a : List String), a.Nodup → (dispatchLoop ok b a).already.Nodup := by
  intro b
  induction b with
  | nil => intro a h; exact h
  | cons it rest ih =>
    intro a h
    by_cases hk : ok it = true
    · simp only [dispatchLoop, hk, if_true]
      exact ih _ (insertSet_nodup h)
    · simp only [dispatchLoop, hk]
      rw [if_neg (by simp [hk])]
      exact ih _ h

theorem dispatchLoop_already_length (ok : Item → Bool) :
    ∀ (b : List Item) (a : List String),
      (dispatchLoop ok b a).already.length ≤ a.length + b.length := by
  intro b
  induction b with
  | nil => intro a; simp [dispatchLoop]
  | cons it rest ih =>
    intro a
    by_cases hk : ok it = true
    · simp only [dispatchLoop, hk, if_true]
      have h1 := ih (insertSet it.id a)
      have h2 := insertSet_length_le it.id a
      simp only [List.length_cons]
      omega
    · simp only [dispatchLoop, hk]
      rw [if_neg (by simp [hk])]
      have h1 := ih a
      simp only [List.length_cons]
      omega

theorem dedupItems_sublist : ∀ (l : List Item) (ids : List String),
    List.Sublist (dedupItems l ids) l := by
  intro l
  induction l with
  | nil => intro ids; simp [dedupItems]
  | cons a rest ih =>
    intro ids
    by_cases h : a.id ∈ ids
    · rw [dedupItems, if_pos h]
      exact (ih ids).cons a
    · rw [dedupItems, if_neg h]
      exact (ih _).cons₂ a

theorem dedupItems_id_not_mem : ∀ (l : List Item) (ids : List String),
    ∀ it ∈ dedupItems l ids, it.id ∉ ids := by
  intro l
  induction l with
  | nil => intro ids it hit; simp [dedupItems] at hit
  | cons a rest ih =>
    intro ids it hit
    by_cases h : a.id ∈ ids
    · rw [dedupItems, if_pos h] at hit
      exact ih ids it hit
    · rw [dedupItems, if_neg h] at hit
      rcases List.mem_cons.mp hit with rfl | hit2
      · exact h
      · have h2 := ih _ it hit2
        intro hin
        exact h2 (List.mem_cons_of_mem _ hin)

theorem dedupItems_ids_nodup : ∀ (l : List Item) (ids : List String),
    ((dedupItems l ids).map Item.id).Nodup := by
  intro l
  induction l with
  | nil => intro ids; simp [dedupItems]
  | cons a rest ih =>
    intro ids
    by_cases h : a.id ∈ ids
    · rw [dedupItems, if_pos h]
      exact ih ids
    · rw [dedupItems, if_neg h]
      simp only [List.map_cons, List.nodup_cons]
      refine ⟨?_, ih _⟩
      intro hmem
      rcases List.mem_map.mp hmem with ⟨it, hit, hid⟩
      have h2 := dedupItems_id_not_mem rest _ it hit
      exact h2 (by rw [hid]; exact List.mem_cons_self _ _)

theorem dedupItems_mem_id : ∀ (l : List Item) (ids : List String) (x : String),
    (x ∈ (dedupItems l ids).map Item.id) ↔ x ∈ l.map Item.id ∧ x ∉ ids := by
  intro l
  induction l with
  | nil => intro ids x; simp [dedupItems]
  | cons a rest ih =>
    intro ids x
    by_cases h : a.id ∈ ids
    · rw [dedupItems, if_pos h]
      rw [ih]
      simp only [List.map_cons, List.mem_cons]
      constructor
      · rintro ⟨hx, hni⟩; exact ⟨Or.inr hx, hni⟩
      · rintro ⟨hx | hx, hni⟩
        · exact absurd (hx ▸ h) hni
        · exact ⟨hx, hni⟩
    · rw [dedupItems, if_neg h]
      simp only [List.map_cons, List.mem_cons]
      rw [ih]
      simp only [List.mem_cons]
      constructor
      · rintro (rfl | ⟨hx, hni⟩)
        · exact ⟨Or.inl rfl, h⟩
        · exact ⟨Or.inr hx, fun hin => hni (Or.inr hin)⟩
      · rintro ⟨rfl | hx, hni⟩
        · exact Or.inl rfl
        · by_cases hxa : x = a.id
          · exact Or.inl hxa
          · refine Or.inr ⟨hx, fun hin => ?_⟩
            rcases hin with h1 | h1
            · exact hxa h1
            · exact hni h1

theorem dedupItems_find : ∀ (l : List Item) (ids : List String),
    ∀ it ∈ dedupItems l ids, l.find? (fun j => j.id == it.id) = some it := by
  intro l
  induction l with
  | nil => intro ids it hit; simp [dedupItems] at hit
  | cons a rest ih =>
    intro ids it hit
    by_cases h : a.id ∈ ids
    · rw [dedupItems, if_pos h] at hit
      have hne : (a.id == it.id) = false := by
        have h2 := dedupItems_id_not_mem rest ids it hit
        simp only [beq_eq_false_iff_ne, ne_eq]
        intro heq
        exact h2 (heq ▸ h)
      have hstep : List.find? (fun j => j.id == it.id) (a :: rest)
          = List.find? (fun j => j.id == it.id) rest := by
        simp [List.find?, hne]
      rw [hstep]
      exact ih ids it hit
    · rw [dedupItems, if_neg h] at hit
      rcases List.mem_cons.mp hit with rfl | hit2
      · simp [List.find?]
      · have h2 := dedupItems_id_not_mem rest _ it hit2
        have hne : (a.id == it.id) = false := by
          simp only [beq_eq_false_iff_ne, ne_eq]
          intro heq
          exact h2 (heq ▸ List.mem_cons_self _ _)
        have hstep : List.find? (fun j => j.id == it.id) (a :: rest)
            = List.find? (fun j => j.id == it.id) rest := by
          simp [List.find?, hne]
        rw [hstep]
        exact ih _ it hit2

theorem uniqueItems_sublist (l : List Item) : List.Sublist (uniqueItems l) l :=
  dedupItems_sublist l []

theorem uniqueItems_ids_nodup (l : List Item) : ((uniqueItems l).map Item.id).Nodup :=
  dedupItems_ids_nodup l []

theorem uniqueItems_mem_id (l : List Item) (x : String) :
    (x ∈ (uniqueItems l).map Item.id) ↔ x ∈ l.map Item.id := by
  rw [uniqueItems, dedupItems_mem_id]
  simp

theorem uniqueItems_find (l : List Item) :
    ∀ it ∈ uniqueItems l, l.find? (fun j => j.id == it.id) = some it :=
  dedupItems_find l []

theorem nodup_length_eq {l₁ l₂ : List String} (h₁ : l₁.Nodup) (h₂ : l₂.Nodup)
    (h : ∀ x, x ∈ l₁ ↔ x ∈ l₂) : l₁.length = l₂.length :=
  ((List.perm_ext_iff_of_nodup h₁ h₂).mpr h).length_eq

/-- The watermark set of one uid at the end of its dispatch loop
(the Python set named already at line 211). -/
def finalAlready (ok : Item → Bool) (seenEntry : List String) (merged : List Item) :
    List String :=
  (dispatchLoop ok (batchOf seenEntry merged) (already0Of seenEntry)).already

theorem processEntity_attempted (ok : Item → Bool) (lin : List String → List String)
    (se : List String) (m : List Item) :
    (processEntity ok lin se m).attempted = batchOf se m := by
  show (dispatchLoop ok (batchOf se m) (already0Of se)).attempted = batchOf se m
  exact dispatchLoop_attempted ok _ _

theorem processEntity_delivered (ok : Item → Bool) (lin : List String → List String)
    (se : List String) (m : List Item) :
    (processEntity ok lin se m).delivered = (batchOf se m).filter ok := by
  show (dispatchLoop ok (batchOf se m) (already0Of se)).delivered = (batchOf se m).filter ok
  exact dispatchLoop_delivered ok _ _

theorem processEntity_entry (ok : Item → Bool) (lin : List String → List String)
    (se : List String) (m : List Item) :
    (processEntity ok lin se m).entry = lastN 150 (lin (finalAlready ok se m)) := rfl

theorem finalAlready_nodup (ok : Item → Bool) (se : List String) (m : List Item) :
    (finalAlready ok se m).Nodup :=
  dispatchLoop_already_nodup ok _ _ (pySet_nodup se)

theorem finalAlready_mem (ok : Item → Bool) (se : List String) (m : List Item)
    (x : String) :
    (x ∈ finalAlready ok se m) ↔
      x ∈ already0Of se ∨ x ∈ ((batchOf se m).filter ok).map Item.id :=
  dispatchLoop_already_mem ok _ _ x

theorem filter_const_true (l : List Item) : l.filter (fun _ => true) = l := by
  induction l with
  | nil => rfl
  | cons a rest ih => simp [List.filter_cons, ih]

theorem newItemsOf_sublist (se : List String) (m : List Item) :
    List.Sublist (newItemsOf se m) (uniqueItems m) :=
  List.filter_sublist _

theorem batchOf_ids_nodup (se : List String) (m : List Item) :
    ((batchOf se m).map Item.id).Nodup := by
  have h2 : List.Sublist ((newItemsOf se m).take 3) (uniqueItems m) :=
    (List.take_sublist _ _).trans (newItemsOf_sublist se m)
  have h3 : (((newItemsOf se m).take 3).map Item.id).Nodup :=
    List.Nodup.sublist (h2.map Item.id) (uniqueItems_ids_nodup m)
  rw [batchOf, List.map_reverse, List.nodup_reverse]
  exact h3

theorem batchOf_subset_new (se : List String) (m : List Item) :
    ∀ it ∈ batchOf se m, it ∈ newItemsOf se m := by
  intro it hit
  rw [batchOf, List.mem_reverse] at hit
  exact List.mem_of_mem_take hit

theorem mem_new_not_already (se : List String) (m : List Item) :
    ∀ it ∈ newItemsOf se m, it.id ∉ already0Of se := by
  intro it hit
  rcases List.mem_filter.mp hit with ⟨_, hdec⟩
  exact of_decide_eq_true hdec

theorem mem_new_unique (se : List String) (m : List Item) :
    ∀ it ∈ newItemsOf se m, it ∈ uniqueItems m := by
  intro it hit
  exact (List.mem_filter.mp hit).1

theorem entry_nodup (ok : Item → Bool) {lin : List String → List String}
    (hlin : LinOK lin) (se : List String) (m : List Item) :
    (processEntity ok lin se m).entry.Nodup := by
  rw [processEntity_entry]
  exact lastN_nodup ((hlin _ (finalAlready_nodup ok se m)).1)

theorem entry_subset (ok : Item → Bool) {lin : List String → List String}
    (hlin : LinOK lin) (se : List String) (m : List Item) :
    ∀ x ∈ (processEntity ok lin se m).entry, x ∈ finalAlready ok se m := by
  intro x hx
  rw [processEntity_entry] at hx
  have h1 : x ∈ lin (finalAlready ok se m) := (lastN_sublist _ _).subset hx
  exact ((hlin _ (finalAlready_nodup ok se m)).2 x).mp h1

theorem entry_mem_of_le (ok : Item → Bool) {lin : List String → List String}
    (hlin : LinOK lin) (se : List String) (m : List Item)
    (hK : (finalAlready ok se m).length ≤ 150) :
    ∀ x, (x ∈ (processEntity ok lin se m).entry) ↔ x ∈ finalAlready ok se m := by
  intro x
  obtain ⟨hnd, hmem⟩ := hlin _ (finalAlready_nodup ok se m)
  have hlen : (lin (finalAlready ok se m)).length = (finalAlready ok se m).length :=
    nodup_length_eq hnd (finalAlready_nodup ok se m) hmem
  rw [processEntity_entry, lastN_of_length_le (by omega)]
  exact hmem x

theorem entity_second_empty {lin1 : List String → List String} (hlin1 : LinOK lin1)
    (se : List String) (m : List Item)
    (hN : (newItemsOf se m).length ≤ 3)
    (hK : (finalAlready (fun _ => true) se m).length ≤ 150)
    (ok2 : Item → Bool) (lin2 : List String → List String) :
    (processEntity ok2 lin2 (processEntity (fun _ => true) lin1 se m).entry m).attempted
      = [] := by
  rw [processEntity_attempted]
  have hnew : newItemsOf (processEntity (fun _ => true) lin1 se m).entry m = [] := by
    rw [newItemsOf, List.filter_eq_nil_iff]
    intro it hit
    simp only [decide_eq_true_eq, not_not]
    rw [already0Of, pySet_mem]
    rw [entry_mem_of_le (fun _ => true) hlin1 se m hK]
    rw [finalAlready_mem]
    by_cases hid : it.id ∈ already0Of se
    · exact Or.inl hid
    · refine Or.inr ?_
      have hitnew : it ∈ newItemsOf se m := by
        rw [newItemsOf, List.mem_filter]
        exact ⟨hit, decide_eq_true hid⟩
      rw [filter_const_true, batchOf, List.take_of_length_le hN, List.map_reverse,
        List.mem_reverse]
      exact List.mem_map_of_mem Item.id hitnew
  rw [batchOf, hnew]
  rfl

/-- The update of the in-memory seen dict at one uid (line 211). -/
def seenUpd (s : String → Option (List String)) (u : String) (e : List String) :
    String → Option (List String) :=
  fun x => if x = u then some e else s x

theorem seenUpd_self (s : String → Option (List String)) (u : String) (e : List String) :
    seenUpd s u e u = some e := if_pos rfl

theorem seenUpd_ne (s : String → Option (List String)) (u : String) (e : List String)
    {x : String} (h : x ≠ u) : seenUpd s u e x = s x := if_neg h

theorem runScan_seen_cons (ok : String → Item → Bool) (lin : List String → List String)
    (fetch : String → List Item) (u : String) (rest : List String)
    (s : String → Option (List String)) :
    (runScan ok lin fetch (u :: rest) s).seen
      = (runScan ok lin fetch rest
          (seenUpd s u (processEntity (ok u) lin ((s u).getD []) (fetch u)).entry)).seen := rfl

theorem runScan_attempted_cons (ok : String → Item → Bool) (lin : List String → List String)
    (fetch : String → List Item) (u : String) (rest : List String)
    (s : String → Option (List String)) :
    (runScan ok lin fetch (u :: rest) s).attempted
      = ((batchOf ((s u).getD []) (fetch u)).map (fun it => (u, it)))
        ++ (runScan ok lin fetch rest
            (seenUpd s u (processEntity (ok u) lin ((s u).getD []) (fetch u)).entry)).attempted := by
  have h : (runScan ok lin fetch (u :: rest) s).attempted
      = ((processEntity (ok u) lin ((s u).getD []) (fetch u)).attempted.map (fun it => (u, it)))
        ++ (runScan ok lin fetch rest
            (seenUpd s u (processEntity (ok u) lin ((s u).getD []) (fetch u)).entry)).attempted := rfl
  rw [h, processEntity_attempted]

theorem runScan_seen_not_mem (ok : String → Item → Bool) (lin : List String → List String)
    (fetch : String → List Item) :
    ∀ (uids : List String) (s : String → Option (List String)) (uid : String),
      uid ∉ uids → (runScan ok lin fetch uids s).seen uid = s uid := by
  intro uids
  induction uids with
  | nil => intro s uid _; rfl
  | cons u rest ih =>
    intro s uid h
    have h1 : uid ≠ u := fun e => h (e ▸ List.mem_cons_self u rest)
    have h2 : uid ∉ rest := fun hm => h (List.mem_cons_of_mem _ hm)
    rw [runScan_seen_cons, ih _ uid h2, seenUpd_ne _ _ _ h1]

theorem runScan_seen_mem (ok : String → Item → Bool) (lin : List String → List String)
    (fetch : String → List Item) :
    ∀ (uids : List String), uids.Nodup →
      ∀ (s : String → Option (List String)) (uid : String), uid ∈ uids →
        (runScan ok lin fetch uids s).seen uid
          = some (processEntity (ok uid) lin ((s uid).getD []) (fetch uid)).entry := by
  intro uids
  induction uids with
  | nil => intro _ s uid h; simp at h
  | cons u rest ih =>
    intro hnd s uid hmem
    have hu : u ∉ rest := (List.nodup_cons.mp hnd).1
    have hrest : rest.Nodup := (List.nodup_cons.mp hnd).2
    rw [runScan_seen_cons]
    rcases List.mem_cons.mp hmem with rfl | hm
    · rw [runScan_seen_not_mem ok lin fetch rest _ uid hu, seenUpd_self]
    · have hne : uid ≠ u := fun e => hu (e ▸ hm)
      rw [ih hrest _ uid hm, seenUpd_ne _ _ _ hne]

theorem runScan_attempted_fst (ok : String → Item → Bool) (lin : List String → List String)
    (fetch : String → List Item) :
    ∀ (uids : List String) (s : String → Option (List String)) (p : String × Item),
      p ∈ (runScan ok lin fetch uids s).attempted → p.1 ∈ uids := by
  intro uids
  induction uids with
  | nil => intro s p h; exact absurd h (by intro h2; simp [runScan] at h2)
  | cons u rest ih =>
    intro s p h
    rw [runScan_attempted_cons] at h
    rcases List.mem_append.mp h with h1 | h1
    · rcases List.mem_map.mp h1 with ⟨it, _, rfl⟩
      exact List.mem_cons_self u rest
    · exact List.mem_cons_of_mem _ (ih _ p h1)

theorem filter_map_pair (u : String) (b : List Item) :
    (b.map (fun it => (u, it))).filter (fun p => p.1 == u) = b.map (fun it => (u, it)) := by
  induction b with
  | nil => rfl
  | cons a rest ih => simp [List.filter_cons, ih]

theorem filter_map_pair_ne (u v : String) (h : u ≠ v) (b : List Item) :
    (b.map (fun it => (u, it))).filter (fun p => p.1 == v) = [] := by
  have hb : (u == v) = false := beq_eq_false_iff_ne.mpr h
  induction b with
  | nil => rfl
  | cons a rest ih => simp [List.filter_cons, hb, ih]

theorem runScan_attempted_filter (ok : String → Item → Bool) (lin : List String → List String)
    (fetch : String → List Item) :
    ∀ (uids : List String), uids.Nodup →
      ∀ (s : String → Option (List String)) (uid : String), uid ∈ uids →
        ((runScan ok lin fetch uids s).attempted).filter (fun p => p.1 == uid)
          = (batchOf ((s uid).getD []) (fetch uid)).map (fun it => (uid, it)) := by
  intro uids
  induction uids with
  | nil => intro _ s uid h; simp at h
  | cons u rest ih =>
    intro hnd s uid hmem
    have hu : u ∉ rest := (List.nodup_cons.mp hnd).1
    have hrest : rest.Nodup := (List.nodup_cons.mp hnd).2
    rw [runScan_attempted_cons, List.filter_append]
    rcases List.mem_cons.mp hmem with rfl | hm
    · rw [filter_map_pair]
      have hz : ((runScan ok lin fetch rest
            (seenUpd s uid (processEntity (ok uid) lin ((s uid).getD []) (fetch uid)).entry)).attempted).filter
              (fun p => p.1 == uid) = [] := by
        rw [List.filter_eq_nil_iff]
        intro p hp
        have hfst := runScan_attempted_fst ok lin fetch rest _ p hp
        simp only [beq_iff_eq]
        intro he
        exact hu (he ▸ hfst)
      rw [hz, List.append_nil]
    · have hne : u ≠ uid := fun e => hu (e ▸ hm)
      have hne2 : uid ≠ u := fun e => hne e.symm
      rw [filter_map_pair_ne u uid hne, ih hrest _ uid hm, seenUpd_ne _ _ _ hne2]
      simp

theorem runScan_entry_length (ok : String → Item → Bool) (lin : List String → List String)
    (fetch : String → List Item) :
    ∀ (uids : List String) (s : String → Option (List String)) (uid : String)
      (w : List String), uid ∈ uids →
        (runScan ok lin fetch uids s).seen uid = some w → w.length ≤ 150 := by
  intro uids
  induction uids with
  | nil => intro s uid w h _; simp at h
  | cons u rest ih =>
    intro s uid w hmem hw
    by_cases hm : uid ∈ rest
    · rw [runScan_seen_cons] at hw
      exact ih _ uid w hm hw
    · have heq : uid = u := by
        rcases List.mem_cons.mp hmem with rfl | hm2
        · rfl
        · exact absurd hm2 hm
      subst heq
      rw [runScan_seen_cons, runScan_seen_not_mem ok lin fetch rest _ uid hm,
        seenUpd_self] at hw
      have hw2 := Option.some.inj hw
      rw [← hw2, processEntity_entry]
      exact lastN_length_le _ _

theorem linOK_id : LinOK (fun l => l) := fun _ h => ⟨h, fun _ => Iff.rfl⟩

theorem newItemsOf_nil_entry (m : List Item) : newItemsOf [] m = uniqueItems m := by
  rw [newItemsOf]
  apply List.filter_eq_self.mpr
  intro it _
  apply decide_eq_true
  intro hmem
  rw [already0Of, pySet_mem] at hmem
  simp at hmem

theorem uniqueItems_cons_ne_nil (a : Item) (rest : List Item) :
    uniqueItems (a :: rest) ≠ [] := by
  rw [uniqueItems, dedupItems, if_neg (by simp : ¬ a.id ∈ ([] : List String))]
  exact List.cons_ne_nil _ _

theorem batchOf_length_le (se : List String) (m : List Item) :
    (batchOf se m).length ≤ 3 := by
  rw [batchOf, List.length_reverse, List.length_take]
  omega

theorem finalAlready_length_of_nil (ok : Item → Bool) (m : List Item) :
    (finalAlready ok [] m).length ≤ 3 := by
  have h1 := dispatchLoop_already_length ok (batchOf [] m) (already0Of [])
  have h2 := batchOf_length_le ([] : List String) m
  have h3 : (already0Of ([] : List String)).length = 0 := rfl
  rw [finalAlready]
  omega

theorem not_in_finalAlready {D : Item} (ok : Item → Bool) (se : List String)
    (m : List Item) (hD : D ∈ batchOf se m) (hfail : ok D = false) :
    D.id ∉ finalAlready ok se m := by
  intro hmem
  rcases (finalAlready_mem ok se m D.id).mp hmem with h1 | h1
  · exact mem_new_not_already se m D (batchOf_subset_new se m D hD) h1
  · rcases List.mem_map.mp h1 with ⟨it, hit, hid⟩
    have hit2 : it ∈ batchOf se m := List.mem_of_mem_filter hit
    have heq : it = D :=
      List.inj_on_of_nodup_map (batchOf_ids_nodup se m) hit2 hD hid
    have hco := (List.mem_filter.mp hit).2
    rw [heq, hfail] at hco
    exact Bool.false_ne_true hco

theorem mem_take_mono {α : Type} :
    ∀ (l : List α) (m : Nat) (x : α), x ∈ l.take m → x ∈ l.take (m + 1) := by
  intro l
  induction l with
  | nil => intro m x h; simp at h
  | cons a rest ih =>
    intro m x h
    cases m with
    | zero => simp at h
    | succ k =>
      rw [List.take_succ_cons] at h
      rw [List.take_succ_cons]
      rcases List.mem_cons.mp h with rfl | h2
      · exact List.mem_cons_self _ _
      · exact List.mem_cons_of_mem _ (ih k x h2)

theorem mem_take_filter {α : Type} (p : α → Bool) :
    ∀ (l : List α) (n : Nat) (x : α), x ∈ l.take n → p x = true →
      x ∈ (l.filter p).take n := by
  intro l
  induction l with
  | nil => intro n x h _; simp at h
  | cons a rest ih =>
    intro n x h hp
    cases n with
    | zero => simp at h
    | succ m =>
      rw [List.take_succ_cons] at h
      rcases List.mem_cons.mp h with rfl | h2
      · rw [List.filter_cons, if_pos hp, List.take_succ_cons]
        exact List.mem_cons_self _ _
      · have hx := ih m x h2 hp
        by_cases hpa : p a = true
        · rw [List.filter_cons, if_pos hpa, List.take_succ_cons]
          exact List.mem_cons_of_mem _ hx
        · rw [List.filter_cons, if_neg hpa]
          exact mem_take_mono _ m x hx

theorem retryGo_ok (outcome : Nat → Except E R) (base : ℚ) (jit : Nat → ℚ)
    (n i : Nat) (last : Option E) (r : R) (h : outcome i = .ok r) :
    retryGo outcome base jit (n + 1) i last = ⟨.ok r, 1, []⟩ := by
  rw [retryGo, h]

theorem retryGo_error (outcome : Nat → Except E R) (base : ℚ) (jit : Nat → ℚ)
    (n i : Nat) (last : Option E) (e : E) (h : outcome i = .error e) :
    retryGo outcome base jit (n + 1) i last
      = ⟨(retryGo outcome base jit n (i + 1) (some e)).result,
         (retryGo outcome base jit n (i + 1) (some e)).calls + 1,
         (base * 2 ^ i + jit i) :: (retryGo outcome base jit n (i + 1) (some e)).sleeps⟩ := by
  rw [retryGo, h]

theorem retryGo_all_fail (outcome : Nat → Except E R) (err : Nat → E) (base : ℚ)
    (jit : Nat → ℚ) :
    ∀ (n i : Nat) (last : Option E),
      (∀ j, i ≤ j → j < i + n → outcome j = .error (err j)) →
      retryGo outcome base jit n i last
        = ⟨.error (if n = 0 then last else some (err (i + n - 1))), n,
            (List.range' i n).map (fun j => base * 2 ^ j + jit j)⟩ := by
  intro n
  induction n with
  | zero => intro i last _; rfl
  | succ k ih =>
    intro i last h
    have h0 : outcome i = .error (err i) := h i (le_refl i) (by omega)
    rw [retryGo_error outcome base jit k i last (err i) h0]
    rw [ih (i + 1) (some (err i)) (fun j hj1 hj2 => h j (by omega) (by omega))]
    have hres : (if k = 0 then some (err i) else some (err (i + 1 + k - 1)))
        = some (err (i + (k + 1) - 1)) := by
      by_cases hk : k = 0
      · subst hk; simp
      · rw [if_neg hk]
        congr 2
        omega
    have hsleeps : (base * 2 ^ i + jit i)
          :: (List.range' (i + 1) k).map (fun j => base * 2 ^ j + jit j)
        = (List.range' i (k + 1)).map (fun j => base * 2 ^ j + jit j) := by
      rw [List.range'_succ i k 1]
      rfl
    rw [hsleeps, hres]
    simp

theorem retryGo_success (outcome : Nat → Except E R) (base : ℚ) (jit : Nat → ℚ) :
    ∀ (k n i : Nat) (last : Option E) (r : R), k < n →
      (∀ j, i ≤ j → j < i + k → ∃ e, outcome j = .error e) →
      outcome (i + k) = .ok r →
      (retryGo outcome base jit n i last).result = .ok r
      ∧ (retryGo outcome base jit n i last).calls = k + 1 := by
  intro k
  induction k with
  | zero =>
    intro n i last r hk hfail hok
    cases n with
    | zero => omega
    | succ m =>
      simp only [Nat.add_zero] at hok
      rw [retryGo_ok outcome base jit m i last r hok]
      exact ⟨rfl, rfl⟩
  | succ k ih =>
    intro n i last r hk hfail hok
    cases n with
    | zero => omega
    | succ m =>
      obtain ⟨e, he⟩ := hfail i (le_refl i) (by omega)
      rw [retryGo_error outcome base jit m i last e he]
      have ihm := ih m (i + 1) (some e) r (by omega)
        (fun j hj1 hj2 => hfail j (by omega) (by omega))
        (by rw [show i + 1 + k = i + (k + 1) by omega]; exact hok)
      exact ⟨ihm.1, by rw [ihm.2]⟩

/-- The dispatch sequence exactly as the spec phrases it: the newest n of the
items whose id is absent from the stored watermark, emitted oldest first
(reverse of newest-first order). -/
def specDispatch (n : Nat) (merged : List Item) (stored : List String) : List Item :=
  ((merged.filter (fun it => decide (it.id ∉ stored))).take n).reverse

/-- Claim C4: chronological dispatch with flood cap.  For every entity and
every merged list, the items whose send is attempted are exactly the newest
three of the deduplicated items whose ids are absent from the stored
watermark entry, sent oldest first; with watermark containing A and B and
merged newest-first C, B, A the dispatch order is just C, and under the
spec's cap of two with an empty watermark the dispatch order is B then C. -/
theorem C4_chronological_dispatch :
    (∀ (ok : Item → Bool) (lin : List String → List String) (se : List String)
        (m : List Item),
      (processEntity ok lin se m).attempted = specDispatch 3 (uniqueItems m) se)
    ∧ specDispatch 3
        [⟨"C", "c", none, "t"⟩, ⟨"B", "b", none, "t"⟩, ⟨"A", "a", none, "t"⟩]
        ["A", "B"]
        = [⟨"C", "c", none, "t"⟩]
    ∧ specDispatch 2
        [⟨"C", "c", none, "t"⟩, ⟨"B", "b", none, "t"⟩, ⟨"A", "a", none, "t"⟩]
        []
        = [⟨"B", "b", none, "t"⟩, ⟨"C", "c", none, "t"⟩]
    ∧ (processEntity (fun _ => true) (fun l => l) ["A", "B"]
        [⟨"C", "c", none, "t"⟩, ⟨"B", "b", none, "t"⟩, ⟨"A", "a", none, "t"⟩]).attempted
        = [⟨"C", "c", none, "t"⟩] := by
  refine ⟨?_, by decide, by decide, by decide⟩
  intro ok lin se m
  rw [processEntity_attempted, batchOf, newItemsOf, specDispatch]
  have hf : (uniqueItems m).filter (fun it => decide (it.id ∉ already0Of se))
      = (uniqueItems m).filter (fun it => decide (it.id ∉ se)) := by
    apply List.filter_congr
    intro it _
    apply decide_eq_decide.mpr
    apply not_congr
    rw [already0Of]
    exact pySet_mem
  rw [hf]

/-- Claim C5: MergeAll deduplication.  Per-source results are concatenated in
fetcher priority order and deduplicated by id keeping the earliest
occurrence: the deduplicated list is a sublist of the concatenation, its ids
are pairwise distinct, it covers exactly the ids of the concatenation, and
each of its elements is the first element of the concatenation carrying its
id; in particular merging A, B from the priority-1 source with B, C from the
priority-2 source yields exactly A, B, C with B taken from the priority-1
source. -/
theorem C5_mergeall_dedup :
    (∀ sources : List (List RawItem × String),
      List.Sublist (uniqueItems (mergeAll sources)) (mergeAll sources)
      ∧ ((uniqueItems (mergeAll sources)).map Item.id).Nodup
      ∧ (∀ x, (x ∈ (uniqueItems (mergeAll sources)).map Item.id)
            ↔ x ∈ (mergeAll sources).map Item.id)
      ∧ ∀ it ∈ uniqueItems (mergeAll sources),
          (mergeAll sources).find? (fun j => j.id == it.id) = some it)
    ∧ mergeAll [([("A", "a1", none), ("B", "b1", some "l1")], "s1"),
                ([("B", "b2", some "l2"), ("C", "c2", none)], "s2")]
        = [⟨"A", "a1", none, "s1"⟩, ⟨"B", "b1", some "l1", "s1"⟩,
           ⟨"B", "b2", some "l2", "s2"⟩, ⟨"C", "c2", none, "s2"⟩]
    ∧ uniqueItems (mergeAll [([("A", "a1", none), ("B", "b1", some "l1")], "s1"),
                ([("B", "b2", some "l2"), ("C", "c2", none)], "s2")])
        = [⟨"A", "a1", none, "s1"⟩, ⟨"B", "b1", some "l1", "s1"⟩,
           ⟨"C", "c2", none, "s2"⟩] := by
  refine ⟨?_, by decide, by decide⟩
  intro sources
  exact ⟨uniqueItems_sublist _, uniqueItems_ids_nodup _,
    fun x => uniqueItems_mem_id _ x, uniqueItems_find _⟩

/-- Claim C6: bounded history.  For every run and every tracked entity, the
watermark entry the run stores for that entity has length at most 150. -/
theorem C6_bounded_history (ok : String → Item → Bool)
    (lin : List String → List String) (fetch : String → List Item)
    (uids : List String) (s : String → Option (List String)) (uid : String)
    (w : List String) (hmem : uid ∈ uids)
    (hw : (runScan ok lin fetch uids s).seen uid = some w) :
    w.length ≤ 150 :=
  runScan_entry_length ok lin fetch uids s uid w hmem hw

/-- Witness for C6 at a concrete run: one tracked uid with empty fetch
results gets the empty entry, of length at most 150. -/
theorem C6_bounded_history_witness :
    ("u" ∈ ["u"])
    ∧ (runScan (fun _ _ => true) (fun l => l) (fun _ => []) ["u"]
        (fun _ => none)).seen "u" = some []
    ∧ ([] : List String).length ≤ 150 :=
  ⟨by decide, rfl,
    C6_bounded_history (fun _ _ => true) (fun l => l) (fun _ => []) ["u"]
      (fun _ => none) "u" [] (by decide) rfl⟩

/-- Claim C7: self-check abort.  If the single self-check message fails the
run terminates with the state never loaded, no uid fetched, no notification
attempted and nothing saved, the self-check having been attempted exactly
once; if it succeeds it is still attempted exactly once. -/
theorem C7_selfcheck_abort (ok : String → Item → Bool)
    (lin : List String → List String) (fetch : String → List Item)
    (uids : List String) (loaded : String → Option (List String)) :
    ((mainRun false ok lin fetch uids loaded).selfCheckAttempts = 1
      ∧ (mainRun false ok lin fetch uids loaded).stateLoaded = false
      ∧ (mainRun false ok lin fetch uids loaded).fetchedUids = []
      ∧ (mainRun false ok lin fetch uids loaded).attempted = []
      ∧ (mainRun false ok lin fetch uids loaded).saved = none)
    ∧ (mainRun true ok lin fetch uids loaded).selfCheckAttempts = 1
    ∧ (mainRun true ok lin fetch uids loaded).saved
        = some (runScan ok lin fetch uids loaded).seen := by
  exact ⟨⟨rfl, rfl, rfl, rfl, rfl⟩, rfl, rfl⟩

/-- Claim C9: retry and backoff contract of retry_get.  If every attempt
fails, the GET is invoked exactly tries times, the sleep after the i-th
failure is backoff_base * 2 ^ i plus the jitter of that attempt — which,
whenever the jitter lies in the interval from 0 inclusive to 3/10 exclusive
as random.random() * 0.3 does, bounds each sleep accordingly — and the last
failure is raised to the caller; if some attempt succeeds after the earlier
ones failed, its response is returned and no further attempt is made. -/
theorem C9_retry_backoff (E R : Type) (outcome : Nat → Except E R) (err : Nat → E)
    (base : ℚ) (jit : Nat → ℚ) (tries : Nat) :
    ((∀ i, i < tries → outcome i = .error (err i)) → 0 < tries →
      (retry_get outcome tries base jit).calls = tries
      ∧ (retry_get outcome tries base jit).result = .error (some (err (tries - 1)))
      ∧ (retry_get outcome tries base jit).sleeps
          = (List.range tries).map (fun i => base * 2 ^ i + jit i)
      ∧ ((∀ i, 0 ≤ jit i ∧ jit i < 3/10) → ∀ i, i < tries →
          ∃ q, (retry_get outcome tries base jit).sleeps[i]? = some q
            ∧ base * 2 ^ i ≤ q ∧ q < base * 2 ^ i + 3/10))
    ∧ (∀ (k : Nat) (r : R), k < tries →
        (∀ i, i < k → outcome i = .error (err i)) → outcome k = .ok r →
        (retry_get outcome tries base jit).result = .ok r
        ∧ (retry_get outcome tries base jit).calls = k + 1) := by
  constructor
  · intro hall hpos
    have hrun := retryGo_all_fail outcome err base jit tries 0 none
      (fun j _ hj => hall j (by omega))
    rw [retry_get, hrun]
    have hne : ¬ tries = 0 := by omega
    rw [if_neg hne, ← List.range_eq_range' tries]
    refine ⟨rfl, by simp, rfl, ?_⟩
    intro hj i hi
    refine ⟨base * 2 ^ i + jit i, ?_, ?_, ?_⟩
    · rw [List.getElem?_map, List.getElem?_range hi]
      rfl
    · have := (hj i).1
      linarith
    · have := (hj i).2
      linarith
  · intro k r hk hfail hok
    have := retryGo_success outcome base jit k tries 0 none r hk
      (fun j _ hj => ⟨err j, hfail j (by omega)⟩) (by simpa using hok)
    exact this

/-- Witness for C9: with two attempts that both fail the GET runs twice and
raises the second failure; with a failure followed by a success the response
of attempt 1 is returned after exactly two invocations. -/
theorem C9_retry_backoff_witness :
    ((retry_get (fun i => (.error i : Except Nat Nat)) 2 (4/5) (fun _ => 1/10)).calls = 2
      ∧ (retry_get (fun i => (.error i : Except Nat Nat)) 2 (4/5) (fun _ => 1/10)).result
          = .error (some 1)
      ∧ ∃ q, (retry_get (fun i => (.error i : Except Nat Nat)) 2 (4/5)
            (fun _ => 1/10)).sleeps[1]? = some q
          ∧ (4:ℚ)/5 * 2 ^ 1 ≤ q ∧ q < 4/5 * 2 ^ 1 + 3/10)
    ∧ ((retry_get (fun i => if i = 0 then (.error 0 : Except Nat Nat) else .ok 7)
          3 (4/5) (fun _ => 1/10)).result = .ok 7
      ∧ (retry_get (fun i => if i = 0 then (.error 0 : Except Nat Nat) else .ok 7)
          3 (4/5) (fun _ => 1/10)).calls = 2) := by
  constructor
  · have h := (C9_retry_backoff Nat Nat (fun i => .error i) (fun i => i) (4/5)
      (fun _ => 1/10) 2).1 (fun i _ => rfl) (by omega)
    refine ⟨h.1, h.2.1, ?_⟩
    exact h.2.2.2 (fun i => by norm_num) 1 (by omega)
  · exact (C9_retry_backoff Nat Nat
      (fun i => if i = 0 then (.error 0 : Except Nat Nat) else .ok 7) (fun i => i)
      (4/5) (fun _ => 1/10) 3).2 1 7 (by omega)
      (fun i hi => by
        have hi0 : i = 0 := by omega
        subst hi0
        rfl)
      (by norm_num)

/-- Claim C2 (amended): the code has no no-backfill guard for the set-based
watermark.  For an entity with no prior watermark entry and a non-empty
merged list, the first scan writes a watermark entry holding exactly the ids
of the successfully delivered items, and it attempts the newest up-to-three
merged items oldest first — a non-empty batch of at most three
notifications, not zero. -/
theorem C2_no_backfill_amended (ok : String → Item → Bool)
    {lin : List String → List String} (hlin : LinOK lin)
    (fetch : String → List Item) (uids : List String) (hnd : uids.Nodup)
    (s : String → Option (List String)) (uid : String) (hmem : uid ∈ uids)
    (hnone : s uid = none) (hne : fetch uid ≠ []) :
    ∃ w, (runScan ok lin fetch uids s).seen uid = some w
      ∧ (∀ x, (x ∈ w) ↔ x ∈ ((batchOf [] (fetch uid)).filter (ok uid)).map Item.id)
      ∧ ((runScan ok lin fetch uids s).attempted).filter (fun p => p.1 == uid)
          = (batchOf [] (fetch uid)).map (fun it => (uid, it))
      ∧ batchOf [] (fetch uid) ≠ []
      ∧ (batchOf [] (fetch uid)).length ≤ 3 := by
  have hgd : (s uid).getD [] = [] := by rw [hnone]; rfl
  refine ⟨(processEntity (ok uid) lin [] (fetch uid)).entry, ?_, ?_, ?_, ?_,
    batchOf_length_le _ _⟩
  · have h := runScan_seen_mem ok lin fetch uids hnd s uid hmem
    rw [hgd] at h
    exact h
  · intro x
    have hK : (finalAlready (ok uid) [] (fetch uid)).length ≤ 150 :=
      le_trans (finalAlready_length_of_nil _ _) (by omega)
    rw [entry_mem_of_le (ok uid) hlin [] (fetch uid) hK x, finalAlready_mem]
    constructor
    · rintro (h1 | h1)
      · exact absurd h1 (List.not_mem_nil x)
      · exact h1
    · exact Or.inr
  · have h := runScan_attempted_filter ok lin fetch uids hnd s uid hmem
    rw [hgd] at h
    exact h
  · cases hfu : fetch uid with
    | nil => exact absurd hfu hne
    | cons a rest =>
      rw [batchOf, newItemsOf_nil_entry]
      have hlen : 0 < (uniqueItems (a :: rest)).length :=
        List.length_pos.mpr (uniqueItems_cons_ne_nil a rest)
      intro hcontra
      rw [List.reverse_eq_nil_iff] at hcontra
      have hl := congrArg List.length hcontra
      rw [List.length_take] at hl
      simp only [List.length_nil] at hl
      omega

/-- Counterexample to claim C2 as stated: a uid with no prior watermark entry
and one fetched item gets one notification attempted and delivered on the
first scan, not zero, and the written watermark entry holds its id. -/
theorem C2_no_backfill_counterexample :
    (fun _ => (none : Option (List String))) "u" = none
    ∧ (runScan (fun _ _ => true) (fun l => l)
        (fun _ => [⟨"X", "x", none, "t"⟩]) ["u"] (fun _ => none)).attempted
        = [("u", ⟨"X", "x", none, "t"⟩)]
    ∧ (runScan (fun _ _ => true) (fun l => l)
        (fun _ => [⟨"X", "x", none, "t"⟩]) ["u"] (fun _ => none)).seen "u"
        = some ["X"]
    ∧ [("u", (⟨"X", "x", none, "t"⟩ : Item))] ≠ [] :=
  ⟨rfl, rfl, rfl, by decide⟩

/-- Witness for the amended C2 at a concrete run: one uid, no prior entry,
one fetched item, all sends succeeding. -/
theorem C2_no_backfill_witness :
    LinOK (fun l => l)
    ∧ (["u"] : List String).Nodup
    ∧ ((fun _ => (none : Option (List String))) "u" = none)
    ∧ ([(⟨"X", "x", none, "t"⟩ : Item)] ≠ [])
    ∧ (∃ w, (runScan (fun _ _ => true) (fun l => l)
          (fun _ => [⟨"X", "x", none, "t"⟩]) ["u"] (fun _ => none)).seen "u" = some w
        ∧ (∀ x, (x ∈ w) ↔
            x ∈ ((batchOf [] [⟨"X", "x", none, "t"⟩]).filter
              ((fun _ _ => true) "u")).map Item.id)
        ∧ ((runScan (fun _ _ => true) (fun l => l)
            (fun _ => [⟨"X", "x", none, "t"⟩]) ["u"] (fun _ => none)).attempted).filter
              (fun p => p.1 == "u")
            = (batchOf [] [⟨"X", "x", none, "t"⟩]).map (fun it => ("u", it))
        ∧ batchOf [] [(⟨"X", "x", none, "t"⟩ : Item)] ≠ []
        ∧ (batchOf [] [(⟨"X", "x", none, "t"⟩ : Item)]).length ≤ 3) :=
  ⟨linOK_id, by decide, rfl, by decide,
    C2_no_backfill_amended (fun _ _ => true) linOK_id
      (fun _ => [⟨"X", "x", none, "t"⟩]) ["u"] (by decide) (fun _ => none) "u"
      (by decide) rfl (by decide)⟩

/-- Claim C3 (amended): if every fetcher of an entity fails, no notification
is attempted for it and the entry written for it denotes the same id set as
the loaded entry whenever the loaded entry has at most 150 distinct ids —
but only up to duplicate removal and enumeration order, not byte for byte. -/
theorem C3_failure_isolation_amended (ok : String → Item → Bool)
    {lin : List String → List String} (hlin : LinOK lin)
    (fetch : String → List Item) (uids : List String) (hnd : uids.Nodup)
    (s : String → Option (List String)) (uid : String) (hmem : uid ∈ uids)
    (hfail : fetch uid = [])
    (hlen : (already0Of ((s uid).getD [])).length ≤ 150) :
    ∃ w, (runScan ok lin fetch uids s).seen uid = some w
      ∧ w.Nodup
      ∧ (∀ x, (x ∈ w) ↔ x ∈ (s uid).getD [])
      ∧ ∀ it : Item, ((uid, it) ∈ (runScan ok lin fetch uids s).attempted) → False := by
  refine ⟨(processEntity (ok uid) lin ((s uid).getD []) (fetch uid)).entry,
    runScan_seen_mem ok lin fetch uids hnd s uid hmem, entry_nodup _ hlin _ _, ?_, ?_⟩
  · intro x
    have hfa : finalAlready (ok uid) ((s uid).getD []) (fetch uid)
        = already0Of ((s uid).getD []) := by
      rw [hfail]
      rfl
    have hK : (finalAlready (ok uid) ((s uid).getD []) (fetch uid)).length ≤ 150 := by
      rw [hfa]
      exact hlen
    rw [entry_mem_of_le (ok uid) hlin _ _ hK x, hfa, already0Of, pySet_mem]
  · intro it hmem2
    have hflt := runScan_attempted_filter ok lin fetch uids hnd s uid hmem
    have hb : batchOf ((s uid).getD []) (fetch uid) = [] := by
      rw [hfail]
      rfl
    rw [hb] at hflt
    have hin : (uid, it) ∈ ((runScan ok lin fetch uids s).attempted).filter
        (fun p => p.1 == uid) :=
      List.mem_filter.mpr ⟨hmem2, by simp⟩
    rw [hflt] at hin
    simp at hin

/-- Counterexample to claim C3 as stated: a loaded entry with a duplicate id
is rewritten by a run in which every fetcher fails — the persisted entry is
the deduplicated singleton, not byte for byte the loaded list. -/
theorem C3_failure_isolation_counterexample :
    (fun u => if u = "u" then some ["a", "a"] else none) "u" = some ["a", "a"]
    ∧ (runScan (fun _ _ => true) (fun l => l) (fun _ => []) ["u"]
        (fun u => if u = "u" then some ["a", "a"] else none)).seen "u" = some ["a"]
    ∧ some ["a"] ≠ some ["a", "a"] :=
  ⟨rfl, rfl, by decide⟩

/-- Witness for the amended C3 at a concrete run: one uid with loaded entry
of two distinct ids and empty fetch results. -/
theorem C3_failure_isolation_witness :
    LinOK (fun l => l)
    ∧ (["u"] : List String).Nodup
    ∧ ((fun _ => ([] : List Item)) "u" = [])
    ∧ (already0Of (((fun _ => some ["a", "b"]) "u").getD [])).length ≤ 150
    ∧ (∃ w, (runScan (fun _ _ => true) (fun l => l) (fun _ => []) ["u"]
          (fun _ => some ["a", "b"])).seen "u" = some w
        ∧ w.Nodup
        ∧ (∀ x, (x ∈ w) ↔ x ∈ ((fun _ => some ["a", "b"]) "u").getD [])
        ∧ ∀ it : Item, (("u", it) ∈ (runScan (fun _ _ => true) (fun l => l)
            (fun _ => []) ["u"] (fun _ => some ["a", "b"])).attempted) → False) :=
  ⟨linOK_id, by decide, rfl, by decide,
    C3_failure_isolation_amended (fun _ _ => true) linOK_id (fun _ => []) ["u"]
      (by decide) (fun _ => some ["a", "b"]) "u" (by decide) rfl (by decide)⟩

/-- Claim C10 (amended): every watermark entry written by the run — the
entries of the uids the run processes — is duplicate free, duplicates in the
loaded entries of processed uids being removed; entries of uids the run does
not process are carried over unchanged, duplicates included. -/
theorem C10_duplicate_free_amended (ok : String → Item → Bool)
    {lin : List String → List String} (hlin : LinOK lin)
    (fetch : String → List Item) (uids : List String) (hnd : uids.Nodup)
    (s : String → Option (List String)) :
    (∀ uid ∈ uids, ∀ w, (runScan ok lin fetch uids s).seen uid = some w → w.Nodup)
    ∧ ∀ uid, uid ∉ uids → (runScan ok lin fetch uids s).seen uid = s uid := by
  constructor
  · intro uid hm w hw
    rw [runScan_seen_mem ok lin fetch uids hnd s uid hm] at hw
    rw [← Option.some.inj hw]
    exact entry_nodup _ hlin _ _
  · intro uid h
    exact runScan_seen_not_mem ok lin fetch uids s uid h

/-- Counterexample to claim C10 as stated: a duplicate-bearing entry of a uid
that is not in the configured uid list survives the run verbatim, so the
persisted state still contains a per-entity list with duplicate ids. -/
theorem C10_duplicate_free_counterexample :
    (runScan (fun _ _ => true) (fun l => l) (fun _ => []) ["u1"]
        (fun u => if u = "u2" then some ["a", "a"] else none)).seen "u2"
      = some ["a", "a"]
    ∧ ¬ (["a", "a"] : List String).Nodup :=
  ⟨rfl, by decide⟩

/-- Witness for the amended C10 at a concrete run: the processed uid's
duplicate-bearing loaded entry is rewritten duplicate free, the untracked
uid's entry is carried over. -/
theorem C10_duplicate_free_witness :
    (["u"] : List String).Nodup
    ∧ ("u" ∈ ["u"])
    ∧ (["a"] : List String).Nodup
    ∧ (runScan (fun _ _ => true) (fun l => l) (fun _ => []) ["u"]
        (fun _ => some ["a", "a"])).seen "x" = (fun _ => some ["a", "a"]) "x" :=
  ⟨by decide, by decide,
    (C10_duplicate_free_amended (fun _ _ => true) linOK_id (fun _ => []) ["u"]
      (by decide) (fun _ => some ["a", "a"])).1 "u" (by decide) ["a"] rfl,
    (C10_duplicate_free_amended (fun _ _ => true) linOK_id (fun _ => []) ["u"]
      (by decide) (fun _ => some ["a", "a"])).2 "x" (by decide)⟩

theorem scan_second_empty {lin1 : List String → List String} (hlin1 : LinOK lin1)
    (lin2 : List String → List String) (ok2 : String → Item → Bool)
    (fetch : String → List Item) :
    ∀ (uids : List String), uids.Nodup →
      ∀ (s0 s1 : String → Option (List String)),
        (∀ uid ∈ uids, s1 uid
            = some (processEntity (fun _ => true) lin1 ((s0 uid).getD [])
                (fetch uid)).entry) →
        (∀ uid ∈ uids, (newItemsOf ((s0 uid).getD []) (fetch uid)).length ≤ 3) →
        (∀ uid ∈ uids,
          (finalAlready (fun _ => true) ((s0 uid).getD []) (fetch uid)).length ≤ 150) →
        (runScan ok2 lin2 fetch uids s1).attempted = [] := by
  intro uids
  induction uids with
  | nil => intro _ s0 s1 _ _ _; rfl
  | cons u rest ih =>
    intro hnd s0 s1 hagree hN hK
    have hu : u ∉ rest := (List.nodup_cons.mp hnd).1
    have hrest : rest.Nodup := (List.nodup_cons.mp hnd).2
    rw [runScan_attempted_cons]
    have hbatch : batchOf ((s1 u).getD []) (fetch u) = [] := by
      have h1 := hagree u (List.mem_cons_self u rest)
      have h2 := entity_second_empty hlin1 ((s0 u).getD []) (fetch u)
        (hN u (List.mem_cons_self u rest)) (hK u (List.mem_cons_self u rest))
        (ok2 u) lin2
      rw [processEntity_attempted] at h2
      rw [h1]
      exact h2
    rw [hbatch]
    simp only [List.map_nil, List.nil_append]
    apply ih hrest s0
    · intro uid hm
      rw [seenUpd_ne _ _ _ (fun e : uid = u => hu (e ▸ hm))]
      exact hagree uid (List.mem_cons_of_mem _ hm)
    · intro uid hm
      exact hN uid (List.mem_cons_of_mem _ hm)
    · intro uid hm
      exact hK uid (List.mem_cons_of_mem _ hm)

theorem second_batch_mem {lin : List String → List String} (hlin : LinOK lin)
    (okE : Item → Bool) (se : List String) (m : List Item) (D : Item)
    (hD : D ∈ batchOf se m) (hfail : okE D = false)
    (hK : (finalAlready okE se m).length ≤ 150) :
    D ∈ batchOf (processEntity okE lin se m).entry m := by
  have hmemiff := entry_mem_of_le okE hlin se m hK
  have hq : ∀ it : Item,
      decide (it.id ∉ already0Of (processEntity okE lin se m).entry) = true →
      decide (it.id ∉ already0Of se) = true := by
    intro it h
    apply decide_eq_true
    intro hmem0
    apply of_decide_eq_true h
    rw [already0Of, pySet_mem, hmemiff, finalAlready_mem]
    exact Or.inl hmem0
  have hsplit : newItemsOf (processEntity okE lin se m).entry m
      = (newItemsOf se m).filter
          (fun it => decide (it.id ∉ already0Of (processEntity okE lin se m).entry)) := by
    rw [newItemsOf, newItemsOf, List.filter_filter]
    apply List.filter_congr
    intro it _
    cases hb : decide (it.id ∉ already0Of (processEntity okE lin se m).entry) with
    | false => simp
    | true =>
      rw [hq it hb]
      rfl
  have hDtake : D ∈ (newItemsOf se m).take 3 := by
    rw [batchOf, List.mem_reverse] at hD
    exact hD
  have hqD : decide (D.id ∉ already0Of (processEntity okE lin se m).entry) = true := by
    apply decide_eq_true
    intro hmem0
    rw [already0Of, pySet_mem, hmemiff] at hmem0
    exact not_in_finalAlready okE se m hD hfail hmem0
  have hres := mem_take_filter
    (fun it => decide (it.id ∉ already0Of (processEntity okE lin se m).entry))
    (newItemsOf se m) 3 D hDtake hqD
  rw [batchOf, List.mem_reverse, hsplit]
  exact hres

/-- Claim C1 (amended): idempotence of a scan holds provided the first scan
leaves nothing behind — for every processed uid at most three new items were
found (the flood cap dispatches them all), every send of the first scan
succeeded, and the watermark set stayed within the 150 cap so that no id was
evicted; then a second scan against identical fetch results attempts no
notification at all, whatever its own send outcomes and set enumeration. -/
theorem C1_idempotence_amended
    {lin1 : List String → List String} (hlin1 : LinOK lin1)
    (lin2 : List String → List String) (ok2 : String → Item → Bool)
    (fetch : String → List Item) (uids : List String) (hnd : uids.Nodup)
    (s0 : String → Option (List String))
    (hN : ∀ uid ∈ uids, (newItemsOf ((s0 uid).getD []) (fetch uid)).length ≤ 3)
    (hK : ∀ uid ∈ uids,
      (finalAlready (fun _ => true) ((s0 uid).getD []) (fetch uid)).length ≤ 150) :
    (runScan ok2 lin2 fetch uids
        (runScan (fun _ _ => true) lin1 fetch uids s0).seen).attempted = [] := by
  apply scan_second_empty hlin1 lin2 ok2 fetch uids hnd s0
  · intro uid hm
    exact runScan_seen_mem (fun _ _ => true) lin1 fetch uids hnd s0 uid hm
  · exact hN
  · exact hK

/-- Counterexample to claim C1 as stated: with four new items and every send
succeeding, the first scan dispatches only the newest three, so the second
scan against identical fetch results still attempts the fourth item — one
notification, not zero. -/
theorem C1_idempotence_counterexample :
    (runScan (fun _ _ => true) (fun l => l)
        (fun _ => [⟨"4", "t4", none, "t"⟩, ⟨"3", "t3", none, "t"⟩,
                   ⟨"2", "t2", none, "t"⟩, ⟨"1", "t1", none, "t"⟩]) ["u"]
        (runScan (fun _ _ => true) (fun l => l)
          (fun _ => [⟨"4", "t4", none, "t"⟩, ⟨"3", "t3", none, "t"⟩,
                     ⟨"2", "t2", none, "t"⟩, ⟨"1", "t1", none, "t"⟩]) ["u"]
          (fun _ => none)).seen).attempted
      = [("u", ⟨"1", "t1", none, "t"⟩)]
    ∧ [("u", (⟨"1", "t1", none, "t"⟩ : Item))] ≠ [] :=
  ⟨rfl, by decide⟩

/-- Witness for the amended C1 at a concrete pair of scans: one uid, two new
items, every send succeeding, no cap overflow — the second scan attempts
nothing. -/
theorem C1_idempotence_witness :
    LinOK (fun l => l)
    ∧ (["u"] : List String).Nodup
    ∧ (∀ uid ∈ (["u"] : List String),
        (newItemsOf (((fun _ => (none : Option (List String))) uid).getD [])
          ((fun _ => [⟨"b", "tb", none, "t"⟩, ⟨"a", "ta", none, "t"⟩]) uid)).length ≤ 3)
    ∧ (∀ uid ∈ (["u"] : List String),
        (finalAlready (fun _ => true)
          (((fun _ => (none : Option (List String))) uid).getD [])
          ((fun _ => [⟨"b", "tb", none, "t"⟩, ⟨"a", "ta", none, "t"⟩]) uid)).length ≤ 150)
    ∧ (runScan (fun _ _ => true) (fun l => l)
        (fun _ => [⟨"b", "tb", none, "t"⟩, ⟨"a", "ta", none, "t"⟩]) ["u"]
        (runScan (fun _ _ => true) (fun l => l)
          (fun _ => [⟨"b", "tb", none, "t"⟩, ⟨"a", "ta", none, "t"⟩]) ["u"]
          (fun _ => none)).seen).attempted = [] :=
  ⟨linOK_id, by decide, by decide, by decide,
    C1_idempotence_amended linOK_id (fun l => l) (fun _ _ => true)
      (fun _ => [⟨"b", "tb", none, "t"⟩, ⟨"a", "ta", none, "t"⟩]) ["u"] (by decide)
      (fun _ => none) (by decide) (by decide)⟩

/-- Claim C8 (amended): if the send of a batch item D fails, D's id is absent
from the entity's persisted entry, the scan still attempts every batch item
of every processed uid, and a subsequent run against identical fetch results
re-attempts D — the latter provided the entity's watermark set stayed within
the 150 cap, and only because the fetch results are unchanged: fresher items
can push D out of the newest-three batch. -/
theorem C8_delivery_failure_amended (ok : String → Item → Bool)
    {lin : List String → List String} (hlin : LinOK lin)
    (fetch : String → List Item) (uids : List String) (hnd : uids.Nodup)
    (s0 : String → Option (List String)) (uid : String) (hmem : uid ∈ uids)
    (D : Item) (hD : D ∈ batchOf ((s0 uid).getD []) (fetch uid))
    (hfail : ok uid D = false) :
    (∀ w, (runScan ok lin fetch uids s0).seen uid = some w → D.id ∉ w)
    ∧ (∀ v ∈ uids, ((runScan ok lin fetch uids s0).attempted).filter
          (fun p => p.1 == v)
        = (batchOf ((s0 v).getD []) (fetch v)).map (fun it => (v, it)))
    ∧ ((finalAlready (ok uid) ((s0 uid).getD []) (fetch uid)).length ≤ 150 →
        ∀ (ok2 : String → Item → Bool) (lin2 : List String → List String),
          (uid, D) ∈ (runScan ok2 lin2 fetch uids
            (runScan ok lin fetch uids s0).seen).attempted) := by
  refine ⟨?_, ?_, ?_⟩
  · intro w hw
    rw [runScan_seen_mem ok lin fetch uids hnd s0 uid hmem] at hw
    rw [← Option.some.inj hw]
    intro hmem2
    exact not_in_finalAlready (ok uid) _ _ hD hfail
      (entry_subset (ok uid) hlin _ _ D.id hmem2)
  · intro v hv
    exact runScan_attempted_filter ok lin fetch uids hnd s0 v hv
  · intro hK ok2 lin2
    have hb2 := second_batch_mem hlin (ok uid) ((s0 uid).getD []) (fetch uid) D hD
      hfail hK
    have hseen1 := runScan_seen_mem ok lin fetch uids hnd s0 uid hmem
    have hflt := runScan_attempted_filter ok2 lin2 fetch uids hnd
      (runScan ok lin fetch uids s0).seen uid hmem
    rw [hseen1] at hflt
    have hDm : (uid, D) ∈ ((runScan ok2 lin2 fetch uids
        (runScan ok lin fetch uids s0).seen).attempted).filter
          (fun p => p.1 == uid) := by
      rw [hflt]
      exact List.mem_map_of_mem _ hb2
    exact List.mem_of_mem_filter hDm

/-- Counterexample to claim C8 as stated: item D fails in the first run, and
a later run in which D is still fetched — but three fresher items precede it
— does not re-attempt D. -/
theorem C8_delivery_failure_counterexample :
    (runScan (fun _ _ => false) (fun l => l) (fun _ => [⟨"D", "d", none, "t"⟩])
        ["u"] (fun _ => none)).seen "u" = some []
    ∧ (runScan (fun _ _ => true) (fun l => l)
        (fun _ => [⟨"N3", "n3", none, "t"⟩, ⟨"N2", "n2", none, "t"⟩,
                   ⟨"N1", "n1", none, "t"⟩, ⟨"D", "d", none, "t"⟩]) ["u"]
        (runScan (fun _ _ => false) (fun l => l) (fun _ => [⟨"D", "d", none, "t"⟩])
          ["u"] (fun _ => none)).seen).attempted
      = [("u", ⟨"N1", "n1", none, "t"⟩), ("u", ⟨"N2", "n2", none, "t"⟩),
         ("u", ⟨"N3", "n3", none, "t"⟩)]
    ∧ ("u", (⟨"D", "d", none, "t"⟩ : Item)) ∉
        [("u", (⟨"N1", "n1", none, "t"⟩ : Item)), ("u", ⟨"N2", "n2", none, "t"⟩),
         ("u", ⟨"N3", "n3", none, "t"⟩)] :=
  ⟨rfl, rfl, by decide⟩

/-- Witness for the amended C8 at a concrete pair of runs: D's send fails, D
is absent from the persisted entry, and the second run with the same single
fetched item re-attempts D. -/
theorem C8_delivery_failure_witness :
    LinOK (fun l => l)
    ∧ (["u"] : List String).Nodup
    ∧ ((⟨"D", "d", none, "t"⟩ : Item) ∈ batchOf [] [⟨"D", "d", none, "t"⟩])
    ∧ ((fun _ _ => false) "u" (⟨"D", "d", none, "t"⟩ : Item) = false)
    ∧ (finalAlready ((fun _ _ => false) "u") [] [⟨"D", "d", none, "t"⟩]).length ≤ 150
    ∧ (("u", (⟨"D", "d", none, "t"⟩ : Item)) ∈ (runScan (fun _ _ => true) (fun l => l)
        (fun _ => [⟨"D", "d", none, "t"⟩]) ["u"]
        (runScan (fun _ _ => false) (fun l => l) (fun _ => [⟨"D", "d", none, "t"⟩])
          ["u"] (fun _ => none)).seen).attempted) := by
  refine ⟨linOK_id, by decide, by decide, rfl, by decide, ?_⟩
  exact (C8_delivery_failure_amended (fun _ _ => false) linOK_id
      (fun _ => [⟨"D", "d", none, "t"⟩]) ["u"] (by decide) (fun _ => none) "u"
      (by decide) ⟨"D", "d", none, "t"⟩ (by decide) rfl).2.2 (by decide)
      (fun _ _ => true) (fun l => l)
